import Mathlib

/- Verification of the claudiv core: the CDML document model, the structural
   differ, the FQN parser and stringifier, interface facet projection, scope
   resolution, context assembly, and the environment cascade merger.
   Every definition is a shallow embedding of the corresponding function of
   the repository source; the source file and symbol are named in each doc
   comment.  Parsing of markup text into element trees is performed by the
   external htmlparser2/cheerio libraries (out of scope per the spec), so
   the embeddings operate on the parsed element trees those libraries hand
   to the core. -/

set_option maxHeartbeats 1000000

/- ───────────────────────── Document model ───────────────────────── -/

/-- Node of a parsed CDML document tree (the domhandler Element values that
htmlparser2/cheerio hand to src/differ.ts and the environment merger).
`attribs` is the attribute record in insertion order (keys unique),
`text` is the concatenation of the raw data of the element's direct
text-node children — the only way the source ever reads text nodes
(getDirectText) — and `children` is the list of element (tag) children in
document order — the only way the source ever reads non-text children
(getChildElements). -/
inductive Elem where
  | mk (name : String) (attribs : List (String × String)) (text : String)
       (children : List Elem)

def Elem.name : Elem → String
  | .mk n _ _ _ => n

def Elem.attribs : Elem → List (String × String)
  | .mk _ a _ _ => a

def Elem.text : Elem → String
  | .mk _ _ t _ => t

def Elem.children : Elem → List Elem
  | .mk _ _ _ cs => cs

/-- Whitespace test matching the characters the JavaScript runtime treats as
whitespace in String.prototype.trim and the regex class \s (restricted to
the ASCII range, the only characters reachable from CDML sources here). -/
def isWsChar (c : Char) : Bool :=
  c == ' ' || c == '\t' || c == '\n' || c == '\r' || c == '\x0b' || c == '\x0c'

def jsTrimList (l : List Char) : List Char :=
  ((l.dropWhile isWsChar).reverse.dropWhile isWsChar).reverse

/-- Model of JavaScript String.prototype.trim. -/
def jsTrim (s : String) : String := ⟨jsTrimList s.data⟩

/-- Model of getDirectText (src/differ.ts lines 237-247 and 475-483): the
concatenated data of the direct text-node children, trimmed. -/
def getDirectText (e : Elem) : String := jsTrim e.text

/-- Run-collapsing pass of normalizeWhitespace: replace(/\s+/g, ' ').  The
boolean records whether the previous character was part of a whitespace
run already replaced. -/
def collapseWs : Bool → List Char → List Char
  | _, [] => []
  | prevWs, c :: rest =>
    if isWsChar c then
      if prevWs then collapseWs true rest
      else ' ' :: collapseWs true rest
    else c :: collapseWs false rest

/-- Model of normalizeWhitespace (src/differ.ts lines 278-280):
text.replace(/\s+/g, ' ').trim(). -/
def normalizeWhitespace (s : String) : String := jsTrim ⟨collapseWs false s.data⟩

/-- Lookup in a JavaScript attribute record (keys are unique, so the first
match is the only match). -/
def lookupAttr (attrs : List (String × String)) (k : String) : Option String :=
  (attrs.find? (fun p => p.1 == k)).map (fun p => p.2)

/-- Comparison of two code-unit sequences, the ordering JavaScript's default
Array.prototype.sort uses on strings. -/
def charListLe : List Char → List Char → Bool
  | [], _ => true
  | _ :: _, [] => false
  | a :: as, b :: bs =>
    if a.toNat < b.toNat then true
    else if b.toNat < a.toNat then false
    else charListLe as bs

def strLe (a b : String) : Bool := charListLe a.data b.data

def insertSorted (x : String) : List String → List String
  | [] => [x]
  | y :: ys => if strLe x y then x :: y :: ys else y :: insertSorted x ys

/-- Model of Object.keys(...).sort(): ascending code-unit order. -/
def sortStrings (l : List String) : List String := l.foldr insertSorted []

/-- Model of attrsEqual (src/differ.ts lines 261-276): sort both key sets,
require equal length, pairwise equal keys and equal looked-up values. -/
def attrsEqual (a b : List (String × String)) : Bool :=
  let keysA := sortStrings (a.map (fun p => p.1))
  let keysB := sortStrings (b.map (fun p => p.1))
  keysA.length == keysB.length &&
    (keysA.zip keysB).all
      (fun kv => kv.1 == kv.2 && lookupAttr a kv.1 == lookupAttr b kv.2)

/- ───────────────────────── Structural differ ───────────────────────── -/

/-- Change kinds of the differ (src/types.ts CdmlChangeType). -/
inductive CdmlChangeType where
  | added
  | removed
  | modified
  | unchanged
deriving DecidableEq

/-- One node of a diff result (src/types.ts CdmlElementChange).  The source
leaves the optional `children` field absent when there are no child
changes; that is observationally identical to storing the empty list, which
is how the absent case is represented here.  The attribute and text fields
keep their optionality. -/
inductive CdmlElementChange where
  | mk (type : CdmlChangeType) (tagName : String) (path : String)
       (oldAttributes : Option (List (String × String)))
       (newAttributes : Option (List (String × String)))
       (oldText : Option String) (newText : Option String)
       (children : List CdmlElementChange)

def CdmlElementChange.type : CdmlElementChange → CdmlChangeType
  | .mk ty _ _ _ _ _ _ _ => ty

def CdmlElementChange.tagName : CdmlElementChange → String
  | .mk _ tag _ _ _ _ _ _ => tag

def CdmlElementChange.path : CdmlElementChange → String
  | .mk _ _ p _ _ _ _ _ => p

def CdmlElementChange.oldAttributes : CdmlElementChange → Option (List (String × String))
  | .mk _ _ _ oa _ _ _ _ => oa

def CdmlElementChange.newAttributes : CdmlElementChange → Option (List (String × String))
  | .mk _ _ _ _ na _ _ _ => na

def CdmlElementChange.oldText : CdmlElementChange → Option String
  | .mk _ _ _ _ _ ot _ _ => ot

def CdmlElementChange.newText : CdmlElementChange → Option String
  | .mk _ _ _ _ _ _ nt _ => nt

def CdmlElementChange.children : CdmlElementChange → List CdmlElementChange
  | .mk _ _ _ _ _ _ _ cs => cs

/-- Path building shared by the diff builders: parentPath is falsy (empty)
gives the bare tag, otherwise parent, " > ", tag. -/
def childPath (parentPath tagName : String) : String :=
  if parentPath == "" then tagName else parentPath ++ " > " ++ tagName

mutual

/-- Model of buildAddedChange (src/differ.ts lines 183-207): the whole
subtree under a new element is uniformly marked added. -/
def buildAddedChange (parentPath : String) : Elem → CdmlElementChange
  | .mk name attribs text cs =>
    .mk .added name (childPath parentPath name)
      none (some attribs) none (some (jsTrim text))
      (buildAddedChildren (childPath parentPath name) cs)

def buildAddedChildren (path : String) : List Elem → List CdmlElementChange
  | [] => []
  | e :: es => buildAddedChange path e :: buildAddedChildren path es

end

mutual

/-- Model of buildRemovedChange (src/differ.ts lines 209-233): the whole
subtree under a removed old element is uniformly marked removed. -/
def buildRemovedChange (parentPath : String) : Elem → CdmlElementChange
  | .mk name attribs text cs =>
    .mk .removed name (childPath parentPath name)
      (some attribs) none (some (jsTrim text)) none
      (buildRemovedChildren (childPath parentPath name) cs)

def buildRemovedChildren (path : String) : List Elem → List CdmlElementChange
  | [] => []
  | e :: es => buildRemovedChange path e :: buildRemovedChildren path es

end

mutual

/-- Model of diffElement (src/differ.ts lines 128-181): same-tag comparison
of attributes, whitespace-normalized direct text, and positionally diffed
children; a node is modified iff attributes or text differ or some child
change is not unchanged. -/
def diffElement (parentPath : String) : Elem → Elem → CdmlElementChange
  | .mk _on oattrs otext ocs, nel =>
    let tagName := nel.name
    let path := childPath parentPath tagName
    let oldText := jsTrim otext
    let newText := jsTrim nel.text
    let attrsChanged := !attrsEqual oattrs nel.attribs
    let textChanged := normalizeWhitespace oldText != normalizeWhitespace newText
    let childChanges := diffChildren path ocs nel.children
    let hasChildChanges := childChanges.any (fun c => c.type != .unchanged)
    let ty : CdmlChangeType :=
      if attrsChanged || textChanged || hasChildChanges then .modified else .unchanged
    .mk ty tagName path
      (if attrsChanged || ty == .modified then some oattrs else none)
      (if attrsChanged || ty == .modified then some nel.attribs else none)
      (if textChanged then some oldText else none)
      (if textChanged then some newText else none)
      childChanges

/-- Model of diffChildren (src/differ.ts lines 90-126): walk both sibling
lists by index; an index where only the new side exists is an addition,
only the old side a removal, different tag names a removal followed by an
addition, same tag name a recursive element diff.  (The source loop over
indices 0..max(len)-1 is expressed structurally: once one side is
exhausted every remaining index on the other side falls into the
corresponding unilateral case.) -/
def diffChildren (parentPath : String) : List Elem → List Elem → List CdmlElementChange
  | [], news => news.map (buildAddedChange parentPath)
  | o :: os, [] => (o :: os).map (buildRemovedChange parentPath)
  | o :: os, n :: ns =>
    (if o.name != n.name then
      [buildRemovedChange parentPath o, buildAddedChange parentPath n]
    else
      [diffElement parentPath o n]) ++ diffChildren parentPath os ns

end

/-- Summary record of a diff (src/types.ts CdmlDiffResult.summary). -/
structure DiffSummary where
  added : Nat
  removed : Nat
  modified : Nat
  unchanged : Nat
deriving DecidableEq

def bumpSummary (s : DiffSummary) : CdmlChangeType → DiffSummary
  | .added => { s with added := s.added + 1 }
  | .removed => { s with removed := s.removed + 1 }
  | .modified => { s with modified := s.modified + 1 }
  | .unchanged => { s with unchanged := s.unchanged + 1 }

mutual

/-- Model of the walk loop in countChanges (src/differ.ts lines 282-296):
increment the tally for each node, then descend into its children. -/
def countWalk (acc : DiffSummary) : List CdmlElementChange → DiffSummary
  | [] => acc
  | c :: rest => countWalk (countWalkOne acc c) rest

def countWalkOne (acc : DiffSummary) : CdmlElementChange → DiffSummary
  | .mk ty _ _ _ _ _ _ cs => countWalk (bumpSummary acc ty) cs

end

/-- Model of countChanges (src/differ.ts lines 282-296): flat tally of every
change kind across the entire tree. -/
def countChanges (changes : List CdmlElementChange) : DiffSummary :=
  countWalk ⟨0, 0, 0, 0⟩ changes

/-- Diff result (src/types.ts CdmlDiffResult). -/
structure CdmlDiffResult where
  hasChanges : Bool
  changes : List CdmlElementChange
  summary : DiffSummary

/-- Model of diffCdml (src/differ.ts lines 23-39).  The two arguments are
the top-level element sequences of the parsed old and new documents
(getBodyChildren output of the external parse). -/
def diffCdml (oldRoots newRoots : List Elem) : CdmlDiffResult :=
  let changes := diffChildren "" oldRoots newRoots
  let summary := countChanges changes
  { hasChanges := decide (0 < summary.added + summary.removed + summary.modified)
    changes := changes
    summary := summary }

mutual

/-- Recursive test that a change node and its whole subtree are unchanged. -/
def changeAllUnchanged : CdmlElementChange → Bool
  | .mk ty _ _ _ _ _ _ cs => ty == .unchanged && changesAllUnchanged cs

def changesAllUnchanged : List CdmlElementChange → Bool
  | [] => true
  | c :: rest => changeAllUnchanged c && changesAllUnchanged rest

end

/- ───────────────── Differ theorems (claims C1, C5) ───────────────── -/

/-- Top-level element sequence of the parsed document <app><a/><b/></app>:
the container is the app element, its element children are a and b. -/
def oldCascadeRoots : List Elem :=
  [Elem.mk "a" [] "" [], Elem.mk "b" [] "" []]

/-- Top-level element sequence of the parsed document
<app><x/><a/><b/></app>. -/
def newCascadeRoots : List Elem :=
  [Elem.mk "x" [] "" [], Elem.mk "a" [] "" [], Elem.mk "b" [] "" []]

/-- C1: positional-cascade scenario.  diffCdml on the top-level sequences of
<app><a/><b/></app> and <app><x/><a/><b/></app> tallies exactly 2 removed,
3 added, 0 modified over the whole change tree, and the flat change list
is: index 0 gives remove-a then add-x, index 1 gives remove-b then add-a,
index 2 gives add-b. -/
theorem diffCdml_positional_cascade :
    (diffCdml oldCascadeRoots newCascadeRoots).summary = ⟨3, 2, 0, 0⟩ ∧
    (diffCdml oldCascadeRoots newCascadeRoots).changes.map
        (fun c => (c.type, c.tagName)) =
      [(.removed, "a"), (.added, "x"), (.removed, "b"), (.added, "a"), (.added, "b")] ∧
    (diffCdml oldCascadeRoots newCascadeRoots).hasChanges = true := by
  decide

theorem zipSelf_all {α : Type} (l : List α) (f : α × α → Bool)
    (h : ∀ x ∈ l, f (x, x) = true) : (l.zip l).all f = true := by
  induction l with
  | nil => rfl
  | cons x xs ih =>
    simp only [List.zip_cons_cons, List.all_cons]
    rw [h x (List.mem_cons_self x xs), ih (fun y hy => h y (List.mem_cons_of_mem x hy))]
    rfl

theorem attrsEqual_self (a : List (String × String)) : attrsEqual a a = true := by
  unfold attrsEqual
  simp only
  rw [zipSelf_all]
  · simp
  · intro x _
    simp

theorem changesAllUnchanged_any (cs : List CdmlElementChange)
    (h : changesAllUnchanged cs = true) :
    (cs.any fun c => c.type != CdmlChangeType.unchanged) = false := by
  induction cs with
  | nil => rfl
  | cons c rest ih =>
    rw [changesAllUnchanged] at h
    rcases Bool.and_eq_true_iff.mp h with ⟨h1, h2⟩
    have hty : c.type = .unchanged := by
      cases c with
      | mk ty tag p oa na ot nt cs' =>
        rw [changeAllUnchanged] at h1
        rcases Bool.and_eq_true_iff.mp h1 with ⟨hty, _⟩
        simpa [CdmlElementChange.type] using hty
    simp [List.any_cons, hty, ih h2]

mutual

theorem diffElement_self (e : Elem) (p : String) :
    changeAllUnchanged (diffElement p e e) = true := by
  match e with
  | .mk nm attrs tx cs =>
    have hkids := diffChildren_self cs (childPath p nm)
    have hany := changesAllUnchanged_any _ hkids
    simp only [diffElement, Elem.name, Elem.attribs, Elem.text, Elem.children]
    simp only [attrsEqual_self, Bool.not_true, bne_self_eq_false, Bool.false_or,
      Bool.or_self] at *
    simp only [hany, Bool.false_eq_true, if_false]
    simp only [changeAllUnchanged, hkids, Bool.and_true]
    rfl

theorem diffChildren_self (es : List Elem) (p : String) :
    changesAllUnchanged (diffChildren p es es) = true := by
  match es with
  | [] => rfl
  | e :: rest =>
    have h1 := diffElement_self e p
    have h2 := diffChildren_self rest p
    simp only [diffChildren, bne_self_eq_false, Bool.false_eq_true, if_false,
      List.singleton_append, changesAllUnchanged, h1, h2, Bool.and_self]

end

mutual

theorem countWalk_allUnchanged (cs : List CdmlElementChange) (acc : DiffSummary)
    (h : changesAllUnchanged cs = true) :
    (countWalk acc cs).added = acc.added ∧
    (countWalk acc cs).removed = acc.removed ∧
    (countWalk acc cs).modified = acc.modified := by
  match cs with
  | [] => exact ⟨rfl, rfl, rfl⟩
  | c :: rest =>
    rw [changesAllUnchanged] at h
    rcases Bool.and_eq_true_iff.mp h with ⟨h1, h2⟩
    have ih1 := countWalkOne_allUnchanged c acc h1
    have ih2 := countWalk_allUnchanged rest (countWalkOne acc c) h2
    rw [countWalk]
    exact ⟨ih2.1.trans ih1.1, ih2.2.1.trans ih1.2.1, ih2.2.2.trans ih1.2.2⟩

theorem countWalkOne_allUnchanged (c : CdmlElementChange) (acc : DiffSummary)
    (h : changeAllUnchanged c = true) :
    (countWalkOne acc c).added = acc.added ∧
    (countWalkOne acc c).removed = acc.removed ∧
    (countWalkOne acc c).modified = acc.modified := by
  match c with
  | .mk ty tag p oa na ot nt cs =>
    rw [changeAllUnchanged] at h
    rcases Bool.and_eq_true_iff.mp h with ⟨hty, hcs⟩
    have hty' : ty = .unchanged := by simpa using hty
    subst hty'
    have ih := countWalk_allUnchanged cs (bumpSummary acc .unchanged) hcs
    rw [countWalkOne]
    simpa [bumpSummary] using ih

end

/-- C5: diff idempotence.  For every well-formed document (any top-level
element sequence handed over by the parser), diffing the document against
itself yields hasChanges = false and a change tree in which every node is
of kind unchanged. -/
theorem diffCdml_self_unchanged (roots : List Elem) :
    (diffCdml roots roots).hasChanges = false ∧
    changesAllUnchanged (diffCdml roots roots).changes = true := by
  have hall := diffChildren_self roots ""
  have hcount := countWalk_allUnchanged (diffChildren "" roots roots) ⟨0, 0, 0, 0⟩ hall
  constructor
  · simp only [diffCdml, countChanges]
    rcases hcount with ⟨ha, hr, hm⟩
    simp [ha, hr, hm]
  · simpa [diffCdml] using hall

/- ────────────────── Environment cascade merger ────────────────── -/

def Elem.setChildren : Elem → List Elem → Elem
  | .mk n a t _, cs => .mk n a t cs

def Elem.setAttribs : Elem → List (String × String) → Elem
  | .mk n _ t cs, a => .mk n a t cs

/-- Effect of setDirectText (src/differ.ts lines 485-499 of the cascade
module): every existing direct text node is blanked and the new text is
prepended, so the element's direct text becomes exactly the new text. -/
def Elem.setText : Elem → String → Elem
  | .mk n a _ cs, t => .mk n a t cs

/-- Model of one baseMatch.attr(key, value) call: a present key is updated
in place, an absent key is appended (JavaScript object semantics). -/
def setAttr (attrs : List (String × String)) (k v : String) : List (String × String) :=
  if attrs.any (fun p => p.1 == k) then
    attrs.map (fun p => if p.1 == k then (k, v) else p)
  else attrs ++ [(k, v)]

/-- Attribute merge loop of mergeElement (src/differ.ts lines 452-454 of the
cascade module): override wins per key. -/
def setAttrs (base ov : List (String × String)) : List (String × String) :=
  ov.foldl (fun acc kv => setAttr acc kv.1 kv.2) base

/-- Model of baseParent.children(tagName).first().remove(): detach the first
element child with the given tag name; no-op when none matches. -/
def removeFirstNamed (tag : String) : List Elem → List Elem
  | [] => []
  | e :: es => if e.name == tag then es else e :: removeFirstNamed tag es

mutual

/-- Model of mergeElement (src/differ.ts lines 431-473 of the cascade
module).  An override element carrying remove="true" deletes the first
same-tag element of the base parent and stops.  Otherwise the first
same-tag base element, if any, receives the override's attributes
(override wins per key), then the override's element children are merged
into it in order, then non-empty override direct text replaces its direct
text; with no same-tag match the override subtree is appended as a new
child of the base parent. -/
def mergeElement (ov : Elem) (baseParent : Elem) : Elem :=
  match ov with
  | .mk tagName ovAttrs ovText ovChildren =>
    if lookupAttr ovAttrs "remove" == some "true" then
      baseParent.setChildren (removeFirstNamed tagName baseParent.children)
    else
      match baseParent.children.findIdx? (fun c => c.name == tagName) with
      | some i =>
        match baseParent.children[i]? with
        | some m =>
          let m1 := m.setAttribs (setAttrs m.attribs ovAttrs)
          let m2 := mergeChildren ovChildren m1
          let ovDirectText := jsTrim ovText
          let m3 := if ovDirectText != "" then m2.setText ovDirectText else m2
          baseParent.setChildren (baseParent.children.set i m3)
        | none => baseParent
      | none =>
        baseParent.setChildren
          (baseParent.children ++ [Elem.mk tagName ovAttrs ovText ovChildren])

/-- Sequential merge of a list of override elements into one base element
(the .each loops of mergeDocuments and of the child recursion). -/
def mergeChildren : List Elem → Elem → Elem
  | [], b => b
  | oc :: rest, b => mergeChildren rest (mergeElement oc b)

end

/-- Model of mergeDocuments (src/differ.ts lines 414-429 of the cascade
module): each top-level element of the override container is merged into
the base container in order.  Arguments are the two containers (body or
first element) located by the external parse. -/
def mergeDocuments (base ovContainer : Elem) : Elem :=
  mergeChildren ovContainer.children base

/- ──────────────── Merger theorems (claims C8, C10) ──────────────── -/

theorem Elem.setChildren_self (e : Elem) : e.setChildren e.children = e := by
  cases e
  rfl

theorem removeFirstNamed_no_match (tag : String) (cs : List Elem)
    (h : ∀ c ∈ cs, c.name ≠ tag) : removeFirstNamed tag cs = cs := by
  induction cs with
  | nil => rfl
  | cons c rest ih =>
    rw [removeFirstNamed]
    rw [if_neg, ih (fun x hx => h x (List.mem_cons_of_mem c hx))]
    simp [h c (List.mem_cons_self c rest)]

theorem removeFirstNamed_at_match (tag : String) (pre post : List Elem) (e : Elem)
    (hpre : ∀ c ∈ pre, c.name ≠ tag) (he : e.name = tag) :
    removeFirstNamed tag (pre ++ e :: post) = pre ++ post := by
  induction pre with
  | nil => simp [removeFirstNamed, he]
  | cons c rest ih =>
    have hc : (c.name == tag) = false := by
      simp [hpre c (List.mem_cons_self c rest)]
    rw [List.cons_append, removeFirstNamed]
    simp only [hc, Bool.false_eq_true, if_false]
    rw [ih (fun x hx => hpre x (List.mem_cons_of_mem c hx))]
    simp

/-- C10: a remove="true" override element whose tag matches nothing in the
base parent leaves the base parent entirely unchanged — it is never
appended as a new child and no existing child, attribute, or text is
touched. -/
theorem mergeElement_remove_no_match (ov base : Elem)
    (hrem : lookupAttr ov.attribs "remove" = some "true")
    (hnone : ∀ c ∈ base.children, c.name ≠ ov.name) :
    mergeElement ov base = base := by
  match ov with
  | .mk tagName ovAttrs ovText ovChildren =>
    simp only [Elem.attribs] at hrem
    simp only [Elem.name] at hnone
    rw [mergeElement]
    rw [if_pos (by simp [hrem])]
    rw [removeFirstNamed_no_match tagName base.children hnone,
      Elem.setChildren_self]

/-- C10 witness: a concrete removal directive with no matching base element
leaves the concrete base untouched. -/
theorem mergeElement_remove_no_match_witness :
    mergeElement (Elem.mk "db" [("remove", "true")] "" [])
        (Elem.mk "sys" [("v", "1")] "hello" [Elem.mk "svc" [("p", "80")] "" []]) =
      Elem.mk "sys" [("v", "1")] "hello" [Elem.mk "svc" [("p", "80")] "" []] :=
  mergeElement_remove_no_match _ _ (by decide) (by decide)

/-- C8: environment-cascade removal.  The base container holds exactly one
db element, <db port="5432"/>; an override document holding
<db remove="true"/> merges to a result with no db element left. -/
theorem mergeDocuments_removes_db (bn cn : String)
    (ba ca : List (String × String)) (bt ct : String) (pre post : List Elem)
    (hpre : ∀ e ∈ pre, e.name ≠ "db") (hpost : ∀ e ∈ post, e.name ≠ "db") :
    (mergeDocuments
        (Elem.mk bn ba bt (pre ++ Elem.mk "db" [("port", "5432")] "" [] :: post))
        (Elem.mk cn ca ct [Elem.mk "db" [("remove", "true")] "" []])).children =
      pre ++ post ∧
    ∀ e ∈ (mergeDocuments
        (Elem.mk bn ba bt (pre ++ Elem.mk "db" [("port", "5432")] "" [] :: post))
        (Elem.mk cn ca ct [Elem.mk "db" [("remove", "true")] "" []])).children,
      e.name ≠ "db" := by
  have hkey :
      mergeDocuments
          (Elem.mk bn ba bt (pre ++ Elem.mk "db" [("port", "5432")] "" [] :: post))
          (Elem.mk cn ca ct [Elem.mk "db" [("remove", "true")] "" []]) =
        Elem.mk bn ba bt (pre ++ post) := by
    rw [mergeDocuments, Elem.children, mergeChildren, mergeChildren, mergeElement]
    rw [if_pos (by decide)]
    rw [Elem.children,
      removeFirstNamed_at_match "db" pre post (Elem.mk "db" [("port", "5432")] "" [])
        hpre rfl]
    rfl
  refine ⟨by rw [hkey]; rfl, ?_⟩
  rw [hkey]
  intro e he
  simp only [Elem.children] at he
  rcases List.mem_append.mp he with h | h
  · exact hpre e h
  · exact hpost e h

/-- C8 witness: concrete base <sys><svc/><db port="5432"/></sys> and
override <sys><db remove="true"/></sys> leave only the svc child. -/
theorem mergeDocuments_removes_db_witness :
    (mergeDocuments
        (Elem.mk "sys" [] "" [Elem.mk "svc" [] "" [],
          Elem.mk "db" [("port", "5432")] "" []])
        (Elem.mk "sys" [] "" [Elem.mk "db" [("remove", "true")] "" []])).children =
      [Elem.mk "svc" [] "" []] :=
  (mergeDocuments_removes_db "sys" "sys" [] [] "" ""
    [Elem.mk "svc" [] "" []] [] (by decide) (by decide)).1

/- ───────────────────── FQN and interface data model ───────────────────── -/

/-- Parsed fully qualified name (src/types.ts FQN).  `project` is absent for
relative FQNs (parse never sets it; resolution does). -/
structure FQN where
  project : Option String := none
  segments : List String
  fragment : Option String := none
  fragmentPath : Option (List String) := none
  version : Option String := none
  raw : String
deriving DecidableEq

/-- One interface facet (src/types.ts InterfaceFacet).  The facet content is
an opaque payload the core never inspects structurally; it is carried here
as a string. -/
structure InterfaceFacet where
  type : String
  content : String
deriving DecidableEq

/-- Interface of a component (src/types.ts InterfaceDefinition).
`implementsRef` and `extendsRef` model the optional `implements` and
`extends` fields. -/
structure InterfaceDefinition where
  facets : List InterfaceFacet
  implementsRef : Option String := none
  extendsRef : Option String := none
deriving DecidableEq

/-- Dependency declaration (src/types.ts DependencyDefinition). -/
structure DependencyDefinition where
  fqn : FQN
  facets : Option (List String) := none
  usage : Option String := none
  config : List (String × String) := []
deriving DecidableEq

/-- View-filtered interface (src/types.ts ProjectedInterface). -/
structure ProjectedInterface where
  sourceFqn : FQN
  facets : List InterfaceFacet
  purpose : String
deriving DecidableEq

/- ───────────────────── Interface projector ───────────────────── -/

/-- Model of projectFacets (src/projector.ts lines 29-50): keep only the
source facets whose type the dependency names; with no named facet types
(absent or empty list) keep the full facet list.  Purpose is the
dependency's usage annotation, defaulted to the empty string. -/
def projectFacets (dependency : DependencyDefinition)
    (sourceInterface : InterfaceDefinition) : ProjectedInterface :=
  let facets :=
    match dependency.facets with
    | some fs =>
      if fs.length > 0 then
        sourceInterface.facets.filter (fun f => fs.contains f.type)
      else sourceInterface.facets
    | none => sourceInterface.facets
  { sourceFqn := dependency.fqn
    facets := facets
    purpose := dependency.usage.getD "" }

/- ─────────────── Projector theorems (claims C4, C9) ─────────────── -/

/-- C4: projectFacets returns exactly the order-preserving subsequence of
source facets whose type is among the requested facet types, or the whole
source facet list when no facet types are named; each facet of the result
is one of the source facets unchanged (filtering never invents facets). -/
theorem projectFacets_filter_spec (dep : DependencyDefinition)
    (src : InterfaceDefinition) :
    ((projectFacets dep src).facets =
      match dep.facets with
      | some fs =>
        if fs ≠ [] then src.facets.filter (fun f => fs.contains f.type)
        else src.facets
      | none => src.facets) ∧
    (projectFacets dep src).facets.Sublist src.facets ∧
    ∀ f ∈ (projectFacets dep src).facets, f ∈ src.facets := by
  have hform :
      (projectFacets dep src).facets =
        match dep.facets with
        | some fs =>
          if fs ≠ [] then src.facets.filter (fun f => fs.contains f.type)
          else src.facets
        | none => src.facets := by
    cases hd : dep.facets with
    | none => simp [projectFacets, hd]
    | some fs =>
      cases fs with
      | nil => simp [projectFacets, hd]
      | cons t ts => simp [projectFacets, hd]
  have hsub : (projectFacets dep src).facets.Sublist src.facets := by
    rw [hform]
    cases hd : dep.facets with
    | none => exact List.Sublist.refl _
    | some fs =>
      cases fs with
      | nil => simp
      | cons t ts =>
        simp only [ne_eq, reduceCtorEq, not_false_iff, if_true]
        exact List.filter_sublist _
  exact ⟨hform, hsub, fun f hf => hsub.mem hf⟩

/-- C9: when the dependency names a non-empty facet type set none of whose
members occurs among the source facet types, projectFacets returns an
empty facet list (no error, no fallback to the full interface). -/
theorem projectFacets_disjoint_empty (dep : DependencyDefinition)
    (src : InterfaceDefinition) (fs : List String)
    (hdep : dep.facets = some fs) (hne : fs ≠ [])
    (hdisj : ∀ f ∈ src.facets, fs.contains f.type = false) :
    (projectFacets dep src).facets = [] := by
  have hlen : fs.length > 0 := List.length_pos.mpr hne
  simp only [projectFacets, hdep, hlen, if_true]
  refine List.filter_eq_nil_iff.mpr (fun f hf => ?_)
  have := hdisj f hf
  simpa using this

/-- C9 witness: requesting only the gpu facet from an interface exposing a
compute facet and a network facet projects to the empty facet list. -/
theorem projectFacets_disjoint_empty_witness :
    (projectFacets
        ⟨⟨none, ["vm-arm"], none, none, none, "vm-arm"⟩, some ["gpu"], none, []⟩
        ⟨[⟨"compute", "os: linux"⟩, ⟨"network", "port 80"⟩], none, none⟩).facets = [] :=
  projectFacets_disjoint_empty _ _ ["gpu"] rfl (by decide) (by decide)

/- ───────────────────── FQN parser and stringifier ───────────────────── -/

/-- Model of JavaScript Array.prototype.join(sep). -/
def jsJoin (sep : String) : List String → String
  | [] => ""
  | [p] => p
  | p :: q :: rest => p ++ sep ++ jsJoin sep (q :: rest)

/-- Model of String.prototype.lastIndexOf for a single character (the
source only searches single characters). -/
def lastIndexOfCh (c : Char) : List Char → Option Nat
  | [] => none
  | x :: xs =>
    match lastIndexOfCh c xs with
    | some j => some (j + 1)
    | none => if x == c then some 0 else none

/-- Model of String.prototype.indexOf for a single character. -/
def indexOfCh (c : Char) : List Char → Option Nat
  | [] => none
  | x :: xs => if x == c then some 0 else (indexOfCh c xs).map (fun j => j + 1)

/-- Model of String.prototype.split(sep) for a single-character separator:
the empty string splits to [""], a separator at either end or doubled
yields empty groups. -/
def splitOnChar (sep : Char) : List Char → List (List Char)
  | [] => [[]]
  | c :: rest =>
    match splitOnChar sep rest with
    | [] => [[c]]
    | g :: gs => if c == sep then [] :: g :: gs else (c :: g) :: gs

/-- Scope-path stage of parseFQN (src/fqn.ts lines 65-88): reject an empty
remainder and empty segments, then assemble the FQN record; project is
never set at parse time. -/
def parseScopePath (raw : String) (rem2 : List Char)
    (fragParts : Option (List (List Char))) (ver : Option (List Char)) :
    Except String FQN :=
  if rem2 == [] then
    .error ("Invalid FQN \"" ++ raw ++ "\": no scope path")
  else
    if (splitOnChar ':' rem2).any (fun s => s == []) then
      .error ("Invalid FQN \"" ++ raw ++ "\": empty segment in scope path")
    else
      .ok { project := none
            segments := (splitOnChar ':' rem2).map (fun s => (⟨s⟩ : String))
            fragment := fragParts.map (fun ps => (⟨ps.headD []⟩ : String))
            fragmentPath := fragParts.bind (fun ps =>
              if ps.length > 1 then
                some ((ps.drop 1).map (fun s => (⟨s⟩ : String)))
              else none)
            version := ver.map (fun v => (⟨v⟩ : String))
            raw := raw }

/-- Fragment stage of parseFQN (src/fqn.ts lines 47-63): text after the
first #, rejected when empty, split by colons into fragment type and
sub-path. -/
def parseAfterVersion (raw : String) (rem1 : List Char) (ver : Option (List Char)) :
    Except String FQN :=
  match indexOfCh '#' rem1 with
  | some h =>
    if rem1.drop (h + 1) == [] then
      .error ("Invalid FQN \"" ++ raw ++ "\": empty fragment after #")
    else
      parseScopePath raw (rem1.take h) (some (splitOnChar ':' (rem1.drop (h + 1)))) ver
  | none => parseScopePath raw rem1 none ver

/-- Model of parseFQN (src/fqn.ts lines 27-89): reject the empty input,
trim, strip the version after the last @, then the fragment after the
first #, then split the remainder into segments. -/
def parseFQN (raw : String) : Except String FQN :=
  if raw == "" then
    .error "Invalid FQN: empty or non-string value"
  else
    match lastIndexOfCh '@' (jsTrimList raw.data) with
    | some i =>
      if (jsTrimList raw.data).drop (i + 1) == [] then
        .error ("Invalid FQN \"" ++ raw ++ "\": empty version after @")
      else
        parseAfterVersion raw ((jsTrimList raw.data).take i)
          (some ((jsTrimList raw.data).drop (i + 1)))
    | none => parseAfterVersion raw (jsTrimList raw.data) none

/-- Model of stringifyFQN (src/fqn.ts lines 150-172): project and segments
joined by colons, then the @version, then the #fragment and its sub-path
(in that order, as the source emits them). -/
def stringifyFQN (fqn : FQN) : String :=
  let parts := (match fqn.project with | some p => [p] | none => []) ++ fqn.segments
  let r0 := jsJoin ":" parts
  let r1 := match fqn.version with | some v => r0 ++ "@" ++ v | none => r0
  match fqn.fragment with
  | some f =>
    let r2 := r1 ++ "#" ++ f
    match fqn.fragmentPath with
    | some fp => if fp.length > 0 then r2 ++ ":" ++ jsJoin ":" fp else r2
    | none => r2
  | none => r1

/-- Character allowed inside a grammar word part: anything except the three
delimiters and whitespace (kebab-case identifiers and version strings such
as 7.2 all satisfy this). -/
def partChar (c : Char) : Bool := !(c == ':' || c == '#' || c == '@' || isWsChar c)

/-- Validity of one grammar part (segment, fragment, sub-segment, version):
non-empty and free of delimiters and whitespace. -/
def validPart (s : String) : Bool := s != "" && s.data.all partChar

/-- Rendering of a word of the claimed FQN grammar
project-colon-optional segment (colon segment)* (hash fragment
(colon sub-segment)*)? (at version)?.  Parsing never distinguishes a
project prefix from a leading segment, so a grammar word is determined by
its segment list (any project prefix included as the first segment), the
optional fragment with its sub-segments, and the optional version. -/
def renderFQN (segs : List String) (frag : Option (String × List String))
    (ver : Option String) : String :=
  jsJoin ":" segs
    ++ (match frag with
        | some fs => "#" ++ jsJoin ":" (fs.1 :: fs.2)
        | none => "")
    ++ (match ver with
        | some v => "@" ++ v
        | none => "")

/- ────────────── FQN theorems (claims C2 and C6) ────────────── -/

/-- C2 counterexample: the grammar-valid FQN string a#f@v (segment a,
fragment f, version v, no redundant whitespace) parses successfully, but
stringifying the parse yields a@v#f — the stringifier emits the version
before the fragment — so the round-trip equality fails. -/
theorem parseFQN_stringifyFQN_roundtrip_fails :
    renderFQN ["a"] (some ("f", [])) (some "v") = "a#f@v" ∧
    validPart "a" = true ∧ validPart "f" = true ∧ validPart "v" = true ∧
    (parseFQN "a#f@v").map stringifyFQN = .ok "a@v#f" ∧
    "a@v#f" ≠ "a#f@v" := by
  refine ⟨rfl, rfl, rfl, rfl, rfl, by decide⟩

/-- Failure condition of FQN parsing exactly as the claim states it: the
input is empty, the version after the last @ of the trimmed input is
empty, the fragment after the first # of the version-stripped remainder is
empty, no segments remain, or some colon-separated segment is the empty
string. -/
def specParseFails (raw : String) : Bool :=
  let t := jsTrimList raw.data
  let verPart : Option (List Char) :=
    match lastIndexOfCh '@' t with
    | some i => some (t.drop (i + 1))
    | none => none
  let rem1 : List Char :=
    match lastIndexOfCh '@' t with
    | some i => t.take i
    | none => t
  let fragPart : Option (List Char) :=
    match indexOfCh '#' rem1 with
    | some h => some (rem1.drop (h + 1))
    | none => none
  let rem2 : List Char :=
    match indexOfCh '#' rem1 with
    | some h => rem1.take h
    | none => rem1
  raw == "" || verPart == some [] || fragPart == some [] || rem2 == [] ||
    (splitOnChar ':' rem2).any (fun s => s == [])

theorem beq_some_some {α : Type} [BEq α] (a b : α) : (some a == some b) = (a == b) :=
  rfl

theorem parseScopePath_isOk (raw : String) (rem2 : List Char)
    (fp : Option (List (List Char))) (ver : Option (List Char)) :
    (parseScopePath raw rem2 fp ver).isOk =
      !((rem2 == []) || (splitOnChar ':' rem2).any (fun s => s == [])) := by
  rw [parseScopePath]
  by_cases h2 : (rem2 == []) = true
  · rw [if_pos h2, h2]
    rfl
  · have h2' : (rem2 == []) = false := Bool.eq_false_iff.mpr h2
    rw [if_neg h2, h2']
    by_cases h3 : ((splitOnChar ':' rem2).any fun s => s == []) = true
    · rw [if_pos h3, h3]
      rfl
    · have h3' : ((splitOnChar ':' rem2).any fun s => s == []) = false := Bool.eq_false_iff.mpr h3
      rw [if_neg h3, h3']
      rfl

theorem parseAfterVersion_isOk (raw : String) (rem1 : List Char)
    (ver : Option (List Char)) :
    (parseAfterVersion raw rem1 ver).isOk =
      !((match indexOfCh '#' rem1 with
         | some h => some (rem1.drop (h + 1))
         | none => none) == some [] ||
        ((match indexOfCh '#' rem1 with
         | some h => rem1.take h
         | none => rem1) == []) ||
        (splitOnChar ':' (match indexOfCh '#' rem1 with
         | some h => rem1.take h
         | none => rem1)).any (fun s => s == [])) := by
  cases hh : indexOfCh '#' rem1 with
  | none =>
    simp only [parseAfterVersion, hh]
    rw [parseScopePath_isOk]
    rfl
  | some h =>
    simp only [parseAfterVersion, hh]
    by_cases h1 : (rem1.drop (h + 1) == []) = true
    · rw [if_pos h1]
      simp only [beq_some_some, h1]
      rfl
    · have h1' : (rem1.drop (h + 1) == []) = false := Bool.eq_false_iff.mpr h1
      rw [if_neg h1]
      simp only [beq_some_some, h1', Bool.false_or]
      rw [parseScopePath_isOk]

/-- C6: parseFQN rejects the empty string, a bare @, a bare #, and the
doubled-colon input a::b; in general it fails exactly when the input is
empty, the version after @ is empty, the fragment after # is empty, no
segments remain, or a segment is empty. -/
theorem parseFQN_rejects :
    (parseFQN "").isOk = false ∧ (parseFQN "@").isOk = false ∧
    (parseFQN "#").isOk = false ∧ (parseFQN "a::b").isOk = false ∧
    ∀ s, (parseFQN s).isOk = !specParseFails s := by
  refine ⟨by decide, by decide, by decide, by decide, fun s => ?_⟩
  by_cases h0 : s = ""
  · subst h0
    decide
  · have hs : (s == "") = false := by simp [h0]
    rw [parseFQN, specParseFails]
    rw [if_neg (by simp [h0])]
    simp only [hs, Bool.false_or]
    cases hv : lastIndexOfCh '@' (jsTrimList s.data) with
    | none =>
      simp only
      rw [parseAfterVersion_isOk]
      rfl
    | some i =>
      simp only
      by_cases h1 : ((jsTrimList s.data).drop (i + 1) == []) = true
      · rw [if_pos h1]
        simp only [beq_some_some, h1]
        rfl
      · have h1' : ((jsTrimList s.data).drop (i + 1) == []) = false := Bool.eq_false_iff.mpr h1
        rw [if_neg h1]
        simp only [beq_some_some, h1', Bool.false_or]
        rw [parseAfterVersion_isOk]

/- ─────────────── Amended FQN round-trip (claim C2) ─────────────── -/

theorem strExt (a b : String) (h : a.data = b.data) : a = b := by
  cases a; cases b; exact congrArg String.mk h

/-- Character-list form of jsJoin, for data-level reasoning. -/
def charJoin (sep : List Char) : List (List Char) → List Char
  | [] => []
  | [p] => p
  | p :: q :: rest => p ++ sep ++ charJoin sep (q :: rest)

theorem jsJoin_data (sep : String) (ps : List String) :
    (jsJoin sep ps).data = charJoin sep.data (ps.map String.data) := by
  match ps with
  | [] => rfl
  | [p] => rfl
  | p :: q :: rest =>
    show ((p ++ sep) ++ jsJoin sep (q :: rest)).data = _
    rw [String.data_append, String.data_append, jsJoin_data sep (q :: rest)]
    rfl

theorem charJoin_mem {c : Char} (sep : List Char) (ps : List (List Char))
    (hc : c ∈ charJoin sep ps) : c ∈ sep ∨ ∃ p ∈ ps, c ∈ p := by
  match ps with
  | [] => cases hc
  | [p] => exact Or.inr ⟨p, List.mem_singleton_self p, hc⟩
  | p :: q :: rest =>
    rw [charJoin] at hc
    rcases List.mem_append.mp hc with h1 | h2
    · rcases List.mem_append.mp h1 with ha | hb
      · exact Or.inr ⟨p, List.mem_cons_self p _, ha⟩
      · exact Or.inl hb
    · rcases charJoin_mem sep (q :: rest) h2 with h | ⟨r, hr, hcr⟩
      · exact Or.inl h
      · exact Or.inr ⟨r, List.mem_cons_of_mem p hr, hcr⟩

theorem charJoin_ne_nil (sep : List Char) (p : List Char) (rest : List (List Char))
    (hp : p ≠ []) : charJoin sep (p :: rest) ≠ [] := by
  match rest with
  | [] => exact hp
  | q :: rest' =>
    rw [charJoin]
    intro h
    rcases List.append_eq_nil.mp (List.append_eq_nil.mp h).1 with ⟨h1, _⟩
    exact hp h1

theorem splitOnChar_ne_nil (sep : Char) (l : List Char) : splitOnChar sep l ≠ [] := by
  match l with
  | [] => simp [splitOnChar]
  | c :: rest =>
    rw [splitOnChar]
    cases h : splitOnChar sep rest with
    | nil => simp
    | cons g gs =>
      by_cases hc : (c == sep) = true
      · simp [hc]
      · simp [hc]

theorem splitOnChar_no (sep : Char) (l : List Char) (h : sep ∉ l) :
    splitOnChar sep l = [l] := by
  match l with
  | [] => rfl
  | c :: rest =>
    have hc : (c == sep) = false := by
      simp only [beq_eq_false_iff_ne, ne_eq]
      intro hcc
      exact h (hcc ▸ List.mem_cons_self c rest)
    rw [splitOnChar, splitOnChar_no sep rest (fun hm => h (List.mem_cons_of_mem c hm))]
    simp [hc]

theorem splitOnChar_append (sep : Char) (a b : List Char) (ha : sep ∉ a) :
    splitOnChar sep (a ++ sep :: b) = a :: splitOnChar sep b := by
  match a with
  | [] =>
    rw [List.nil_append, splitOnChar]
    cases h : splitOnChar sep b with
    | nil => exact absurd h (splitOnChar_ne_nil sep b)
    | cons g gs => simp [← h]
  | x :: a' =>
    have hx : (x == sep) = false := by
      simp only [beq_eq_false_iff_ne, ne_eq]
      intro hxx
      exact ha (hxx ▸ List.mem_cons_self x a')
    rw [List.cons_append, splitOnChar,
      splitOnChar_append sep a' b (fun hm => ha (List.mem_cons_of_mem x hm))]
    simp [hx]

theorem splitOnChar_charJoin (sep : Char) (ps : List (List Char)) (hne : ps ≠ [])
    (h : ∀ p ∈ ps, sep ∉ p) : splitOnChar sep (charJoin [sep] ps) = ps := by
  match ps with
  | [] => exact absurd rfl hne
  | [p] => exact splitOnChar_no sep p (h p (List.mem_singleton_self p))
  | p :: q :: rest =>
    have hj : charJoin [sep] (p :: q :: rest) = p ++ sep :: charJoin [sep] (q :: rest) := by
      rw [charJoin]
      simp
    rw [hj, splitOnChar_append sep p _ (h p (List.mem_cons_self p _)),
      splitOnChar_charJoin sep (q :: rest) (by simp)
        (fun r hr => h r (List.mem_cons_of_mem p hr))]

theorem lastIndexOfCh_none (c : Char) (l : List Char) (h : c ∉ l) :
    lastIndexOfCh c l = none := by
  match l with
  | [] => rfl
  | x :: xs =>
    have hx : (x == c) = false := by
      simp only [beq_eq_false_iff_ne, ne_eq]
      intro hxx
      exact h (hxx ▸ List.mem_cons_self x xs)
    rw [lastIndexOfCh, lastIndexOfCh_none c xs (fun hm => h (List.mem_cons_of_mem x hm))]
    simp [hx]

theorem lastIndexOfCh_append (c : Char) (a b : List Char) (hb : c ∉ b) :
    lastIndexOfCh c (a ++ c :: b) = some a.length := by
  match a with
  | [] =>
    rw [List.nil_append, lastIndexOfCh, lastIndexOfCh_none c b hb]
    simp
  | x :: a' =>
    rw [List.cons_append, lastIndexOfCh, lastIndexOfCh_append c a' b hb]
    rfl

theorem indexOfCh_none (c : Char) (l : List Char) (h : c ∉ l) :
    indexOfCh c l = none := by
  match l with
  | [] => rfl
  | x :: xs =>
    have hx : (x == c) = false := by
      simp only [beq_eq_false_iff_ne, ne_eq]
      intro hxx
      exact h (hxx ▸ List.mem_cons_self x xs)
    rw [indexOfCh, indexOfCh_none c xs (fun hm => h (List.mem_cons_of_mem x hm))]
    simp [hx]

theorem indexOfCh_append (c : Char) (a b : List Char) (ha : c ∉ a) :
    indexOfCh c (a ++ c :: b) = some a.length := by
  match a with
  | [] =>
    rw [List.nil_append, indexOfCh]
    simp
  | x :: a' =>
    have hx : (x == c) = false := by
      simp only [beq_eq_false_iff_ne, ne_eq]
      intro hxx
      exact ha (hxx ▸ List.mem_cons_self x a')
    rw [List.cons_append, indexOfCh, indexOfCh_append c a' b (fun hm => ha (List.mem_cons_of_mem x hm))]
    simp [hx]

theorem drop_append_cons (a b : List Char) (c : Char) :
    (a ++ c :: b).drop (a.length + 1) = b := by
  rw [show a ++ c :: b = (a ++ [c]) ++ b by simp,
    show a.length + 1 = (a ++ [c]).length by simp]
  exact List.drop_left _ _

theorem validPart_data {s : String} (h : validPart s = true) :
    s.data ≠ [] ∧ ∀ c ∈ s.data, partChar c = true := by
  rw [validPart] at h
  rcases Bool.and_eq_true_iff.mp h with ⟨h1, h2⟩
  have hne : s ≠ "" := by simpa using h1
  refine ⟨fun hd => hne (strExt s "" ?_), fun c hc => List.all_eq_true.mp h2 c hc⟩
  rw [hd]

theorem partChar_notColon {c : Char} (h : partChar c = true) : c ≠ ':' := by
  intro hc
  subst hc
  simp [partChar, isWsChar] at h

theorem partChar_notHash {c : Char} (h : partChar c = true) : c ≠ '#' := by
  intro hc
  subst hc
  simp [partChar, isWsChar] at h

theorem partChar_notAt {c : Char} (h : partChar c = true) : c ≠ '@' := by
  intro hc
  subst hc
  simp [partChar, isWsChar] at h

theorem partChar_notWs {c : Char} (h : partChar c = true) : isWsChar c = false := by
  rw [partChar] at h
  rcases Bool.not_eq_true' .. |>.mp h with h'
  simp only [Bool.or_eq_false_iff] at h'
  exact h'.2

theorem dropWhile_no_ws (l : List Char) (h : ∀ c ∈ l, isWsChar c = false) :
    l.dropWhile isWsChar = l := by
  cases l with
  | nil => rfl
  | cons c cs =>
    rw [List.dropWhile_cons, h c (List.mem_cons_self c cs)]
    simp

theorem jsTrimList_id (l : List Char) (h : ∀ c ∈ l, isWsChar c = false) :
    jsTrimList l = l := by
  rw [jsTrimList, dropWhile_no_ws l h,
    dropWhile_no_ws l.reverse (fun c hc => h c (List.mem_reverse.mp hc)),
    List.reverse_reverse]

theorem charJoin_colon_facts (ps : List (List Char)) (hne : ps ≠ [])
    (hp : ∀ p ∈ ps, p ≠ [] ∧ ∀ c ∈ p, partChar c = true) :
    ('@' ∉ charJoin [':'] ps) ∧ ('#' ∉ charJoin [':'] ps) ∧
    (∀ c ∈ charJoin [':'] ps, isWsChar c = false) ∧
    charJoin [':'] ps ≠ [] ∧
    splitOnChar ':' (charJoin [':'] ps) = ps ∧
    ((splitOnChar ':' (charJoin [':'] ps)).any (fun s => s == []) = false) := by
  have hmem : ∀ c ∈ charJoin [':'] ps, c = ':' ∨ partChar c = true := by
    intro c hc
    rcases charJoin_mem [':'] ps hc with h | ⟨p, hp', hcp⟩
    · exact Or.inl (by simpa using h)
    · exact Or.inr ((hp p hp').2 c hcp)
  have hsplit : splitOnChar ':' (charJoin [':'] ps) = ps :=
    splitOnChar_charJoin ':' ps hne
      (fun p hp' hcol => partChar_notColon ((hp p hp').2 ':' hcol) rfl)
  refine ⟨?_, ?_, ?_, ?_, hsplit, ?_⟩
  · intro h
    rcases hmem '@' h with h' | h'
    · exact absurd h' (by decide)
    · exact absurd h' (by decide)
  · intro h
    rcases hmem '#' h with h' | h'
    · exact absurd h' (by decide)
    · exact absurd h' (by decide)
  · intro c hc
    rcases hmem c hc with h' | h'
    · subst h'
      decide
    · exact partChar_notWs h'
  · match ps, hne with
    | p :: rest, _ => exact charJoin_ne_nil [':'] p rest (hp p (List.mem_cons_self p rest)).1
  · rw [hsplit]
    refine List.any_eq_false.mpr (fun p hp' => ?_)
    simp [(hp p hp').1]

theorem ne_empty_of_data_ne (s : String) (h : s.data ≠ []) : s ≠ "" :=
  fun he => h (by rw [he])

/-- Abstract FQN record a valid grammar word parses to: project never set,
segments as written, fragment and non-empty sub-path as written, version
as written. -/
def grammarFQN (segs : List String) (frag : Option (String × List String))
    (ver : Option String) (raw : String) : FQN :=
  { project := none
    segments := segs
    fragment := frag.map (fun fs => fs.1)
    fragmentPath := frag.bind (fun fs =>
      if fs.2.length > 0 then some fs.2 else none)
    version := ver
    raw := raw }

theorem parseScopePath_join (raw : String) (segs : List String)
    (fp : Option (List (List Char))) (ver : Option (List Char))
    (hne : segs ≠ []) (hv : ∀ s ∈ segs, validPart s = true) :
    parseScopePath raw (charJoin [':'] (segs.map String.data)) fp ver =
      .ok { project := none
            segments := segs
            fragment := fp.map (fun ps => (⟨ps.headD []⟩ : String))
            fragmentPath := fp.bind (fun ps =>
              if ps.length > 1 then
                some ((ps.drop 1).map (fun s => (⟨s⟩ : String)))
              else none)
            version := ver.map (fun v => (⟨v⟩ : String))
            raw := raw } := by
  have hfacts := charJoin_colon_facts (segs.map String.data)
    (by simpa using hne)
    (by
      intro p hp
      rcases List.mem_map.mp hp with ⟨s, hs, rfl⟩
      exact validPart_data (hv s hs))
  rcases hfacts with ⟨-, -, -, hjne, hsplit, hany⟩
  rw [parseScopePath]
  rw [if_neg (by simp only [beq_iff_eq]; exact hjne)]
  rw [if_neg (by simp only [hany]; exact Bool.false_ne_true)]
  rw [hsplit]
  have hmapid : (segs.map String.data).map (fun s => (⟨s⟩ : String)) = segs := by
    rw [List.map_map]
    exact List.map_id'' (fun s => rfl) segs
  rw [hmapid]

theorem stringifyFQN_grammarFQN (segs : List String)
    (frag : Option (String × List String)) (ver : Option String) (raw : String)
    (hnotboth : frag = none ∨ ver = none) :
    stringifyFQN (grammarFQN segs frag ver raw) = renderFQN segs frag ver := by
  rcases frag with _ | ⟨f, subs⟩
  · apply strExt
    rcases ver with _ | v
    · simp [stringifyFQN, grammarFQN, renderFQN, String.data_append]
    · simp [stringifyFQN, grammarFQN, renderFQN, String.data_append]
  · rcases hnotboth with h | h
    · exact absurd h (by simp)
    · subst h
      apply strExt
      cases subs with
      | nil =>
        simp [stringifyFQN, grammarFQN, renderFQN, String.data_append, jsJoin]
      | cons q rest =>
        simp [stringifyFQN, grammarFQN, renderFQN, String.data_append, jsJoin]

theorem renderFQN_data (segs : List String) (frag : Option (String × List String))
    (ver : Option String) :
    (renderFQN segs frag ver).data =
      charJoin [':'] (segs.map String.data)
        ++ (match frag with
            | some fs => '#' :: charJoin [':'] ((fs.1 :: fs.2).map String.data)
            | none => [])
        ++ (match ver with
            | some v => '@' :: v.data
            | none => []) := by
  rcases frag with _ | ⟨f, subs⟩ <;> rcases ver with _ | v <;>
    simp [renderFQN, String.data_append, jsJoin_data, show (":" : String).data = [':'] from rfl,
      show ("#" : String).data = ['#'] from rfl, show ("@" : String).data = ['@'] from rfl,
      show ("" : String).data = [] from rfl]

theorem parseFQN_render (segs : List String) (frag : Option (String × List String))
    (ver : Option String)
    (hsegs : segs ≠ []) (hsegsv : ∀ s ∈ segs, validPart s = true)
    (hfrag : ∀ f subs, frag = some (f, subs) →
      validPart f = true ∧ ∀ s ∈ subs, validPart s = true)
    (hver : ∀ v, ver = some v → validPart v = true) :
    parseFQN (renderFQN segs frag ver) =
      .ok (grammarFQN segs frag ver (renderFQN segs frag ver)) := by
  have hseg := charJoin_colon_facts (segs.map String.data)
    (by simpa using hsegs)
    (by
      intro p hp
      rcases List.mem_map.mp hp with ⟨s, hs, rfl⟩
      exact validPart_data (hsegsv s hs))
  rcases hseg with ⟨hsAt, hsHash, hsWs, hsNe, hsSplit, hsAny⟩
  rcases frag with _ | ⟨f, subs⟩
  · rcases ver with _ | v
    · -- no fragment, no version
      have rd : (renderFQN segs none none).data = charJoin [':'] (segs.map String.data) := by
        rw [renderFQN_data]
        simp
      rw [parseFQN,
        if_neg (by
          simp only [beq_iff_eq]
          exact ne_empty_of_data_ne _ (by rw [rd]; exact hsNe))]
      rw [rd, jsTrimList_id _ hsWs, lastIndexOfCh_none '@' _ hsAt]
      simp only
      rw [parseAfterVersion, indexOfCh_none '#' _ hsHash]
      simp only
      rw [parseScopePath_join _ segs none none hsegs hsegsv]
      simp [grammarFQN]
    · -- version only
      rcases validPart_data (hver v rfl) with ⟨hvne, hvchars⟩
      have rd : (renderFQN segs none (some v)).data =
          charJoin [':'] (segs.map String.data) ++ '@' :: v.data := by
        rw [renderFQN_data]
        simp
      have wsAll : ∀ c ∈ charJoin [':'] (segs.map String.data) ++ '@' :: v.data,
          isWsChar c = false := by
        intro c hc
        rcases List.mem_append.mp hc with h | h
        · exact hsWs c h
        · rcases List.mem_cons.mp h with rfl | h'
          · decide
          · exact partChar_notWs (hvchars c h')
      rw [parseFQN,
        if_neg (by
          simp only [beq_iff_eq]
          apply ne_empty_of_data_ne
          rw [rd]
          intro hnil
          exact hsNe (List.append_eq_nil.mp hnil).1)]
      rw [rd, jsTrimList_id _ wsAll,
        lastIndexOfCh_append '@' _ v.data
          (fun hm => partChar_notAt (hvchars '@' hm) rfl)]
      simp only
      rw [drop_append_cons]
      rw [if_neg (by simp only [beq_iff_eq]; exact hvne)]
      rw [List.take_left]
      rw [parseAfterVersion, indexOfCh_none '#' _ hsHash]
      simp only
      rw [parseScopePath_join _ segs none (some v.data) hsegs hsegsv]
      simp [grammarFQN]
  · rcases hfrag f subs rfl with ⟨hfv, hsubv⟩
    have hfr := charJoin_colon_facts ((f :: subs).map String.data)
      (by simp)
      (by
        intro p hp
        rcases List.mem_map.mp hp with ⟨s, hs, rfl⟩
        rcases List.mem_cons.mp hs with rfl | hs'
        · exact validPart_data hfv
        · exact validPart_data (hsubv s hs'))
    rcases hfr with ⟨hfAt, hfHash, hfWs, hfNe, hfSplit, hfAny⟩
    rcases ver with _ | v
    · -- fragment only
      have rd : (renderFQN segs (some (f, subs)) none).data =
          charJoin [':'] (segs.map String.data) ++
            '#' :: charJoin [':'] ((f :: subs).map String.data) := by
        rw [renderFQN_data]
        simp
      have wsAll : ∀ c ∈ charJoin [':'] (segs.map String.data) ++
          '#' :: charJoin [':'] ((f :: subs).map String.data),
          isWsChar c = false := by
        intro c hc
        rcases List.mem_append.mp hc with h | h
        · exact hsWs c h
        · rcases List.mem_cons.mp h with rfl | h'
          · decide
          · exact hfWs c h'
      have atAll : '@' ∉ charJoin [':'] (segs.map String.data) ++
          '#' :: charJoin [':'] ((f :: subs).map String.data) := by
        intro hmem
        rcases List.mem_append.mp hmem with h | h
        · exact hsAt h
        · rcases List.mem_cons.mp h with h' | h'
          · exact absurd h' (by decide)
          · exact hfAt h'
      rw [parseFQN,
        if_neg (by
          simp only [beq_iff_eq]
          apply ne_empty_of_data_ne
          rw [rd]
          intro hnil
          exact hsNe (List.append_eq_nil.mp hnil).1)]
      rw [rd, jsTrimList_id _ wsAll, lastIndexOfCh_none '@' _ atAll]
      simp only
      rw [parseAfterVersion, indexOfCh_append '#' _ _ hsHash]
      simp only
      rw [drop_append_cons]
      rw [if_neg (by simp only [beq_iff_eq]; exact hfNe)]
      rw [List.take_left, hfSplit]
      rw [parseScopePath_join _ segs (some ((f :: subs).map String.data)) none
        hsegs hsegsv]
      rcases subs with _ | ⟨q, rest⟩
      · simp [grammarFQN]
      · simp [grammarFQN, List.map_map]
        exact List.map_id'' (fun s => rfl) rest
    · -- fragment and version
      rcases validPart_data (hver v rfl) with ⟨hvne, hvchars⟩
      have rd : (renderFQN segs (some (f, subs)) (some v)).data =
          (charJoin [':'] (segs.map String.data) ++
            '#' :: charJoin [':'] ((f :: subs).map String.data)) ++ '@' :: v.data := by
        rw [renderFQN_data]
      have wsAll : ∀ c ∈ (charJoin [':'] (segs.map String.data) ++
          '#' :: charJoin [':'] ((f :: subs).map String.data)) ++ '@' :: v.data,
          isWsChar c = false := by
        intro c hc
        rcases List.mem_append.mp hc with h | h
        · rcases List.mem_append.mp h with h' | h'
          · exact hsWs c h'
          · rcases List.mem_cons.mp h' with rfl | h''
            · decide
            · exact hfWs c h''
        · rcases List.mem_cons.mp h with rfl | h'
          · decide
          · exact partChar_notWs (hvchars c h')
      rw [parseFQN,
        if_neg (by
          simp only [beq_iff_eq]
          apply ne_empty_of_data_ne
          rw [rd]
          intro hnil
          exact hsNe (List.append_eq_nil.mp (List.append_eq_nil.mp hnil).1).1)]
      rw [rd, jsTrimList_id _ wsAll,
        lastIndexOfCh_append '@' _ v.data
          (fun hm => partChar_notAt (hvchars '@' hm) rfl)]
      simp only
      rw [drop_append_cons]
      rw [if_neg (by simp only [beq_iff_eq]; exact hvne)]
      rw [List.take_left]
      rw [parseAfterVersion, indexOfCh_append '#' _ _ hsHash]
      simp only
      rw [drop_append_cons]
      rw [if_neg (by simp only [beq_iff_eq]; exact hfNe)]
      rw [List.take_left, hfSplit]
      rw [parseScopePath_join _ segs (some ((f :: subs).map String.data))
        (some v.data) hsegs hsegsv]
      rcases subs with _ | ⟨q, rest⟩
      · simp [grammarFQN]
      · simp [grammarFQN, List.map_map]
        exact List.map_id'' (fun s => rfl) rest

/-- C2 (amended): for every valid FQN string without redundant whitespace
that does not carry both a fragment and a version — rendered from the
grammar with non-empty delimiter-free parts — stringifyFQN of parseFQN
returns the input string unchanged.  (The unamended claim fails when both
a fragment and a version are present, because stringifyFQN emits the
version before the fragment; see the counterexample.) -/
theorem parseFQN_stringifyFQN_roundtrip_amended (segs : List String)
    (frag : Option (String × List String)) (ver : Option String)
    (hsegs : segs ≠ []) (hsegsv : ∀ s ∈ segs, validPart s = true)
    (hfrag : ∀ f subs, frag = some (f, subs) →
      validPart f = true ∧ ∀ s ∈ subs, validPart s = true)
    (hver : ∀ v, ver = some v → validPart v = true)
    (hnotboth : frag = none ∨ ver = none) :
    (parseFQN (renderFQN segs frag ver)).map stringifyFQN =
      .ok (renderFQN segs frag ver) := by
  rw [parseFQN_render segs frag ver hsegs hsegsv hfrag hver]
  simp only [Except.map]
  rw [stringifyFQN_grammarFQN segs frag ver _ hnotboth]

/-- C2 (amended) witness: the concrete valid FQN string
sys:my-svc#api:users-add (fragment but no version) round-trips. -/
theorem parseFQN_stringifyFQN_roundtrip_amended_witness :
    renderFQN ["sys", "my-svc"] (some ("api", ["users-add"])) none =
      "sys:my-svc#api:users-add" ∧
    (parseFQN "sys:my-svc#api:users-add").map stringifyFQN =
      .ok "sys:my-svc#api:users-add" := by
  constructor
  · rfl
  · have h := parseFQN_stringifyFQN_roundtrip_amended ["sys", "my-svc"]
      (some ("api", ["users-add"])) none
      (by decide) (by decide)
      (by
        intro f subs heq
        rw [Option.some.injEq, Prod.mk.injEq] at heq
        rcases heq with ⟨h1, h2⟩
        subst h1
        subst h2
        exact ⟨by decide, by decide⟩)
      (fun v hv => Option.noConfusion hv)
      (Or.inr rfl)
    rwa [show renderFQN ["sys", "my-svc"] (some ("api", ["users-add"])) none =
      "sys:my-svc#api:users-add" from rfl] at h

/- ───────────────── Context manifest and scope resolver ───────────────── -/

/-- Code artifact reference (src/types.ts ContextRef). -/
structure ContextRef where
  file : String
  role : String
  lines : Option String := none
  keys : Option String := none
deriving DecidableEq

/-- Architectural fact (src/types.ts ContextFact). -/
structure ContextFact where
  content : String
  decision : Option String := none
deriving DecidableEq

/-- One fulfills obligation of a scope (src/types.ts ContextScope). -/
structure FulfillsRef where
  fqn : String
deriving DecidableEq

/-- One depends obligation of a scope (src/types.ts ContextScope). -/
structure DependsRef where
  fqn : String
  facet : Option String := none
  usage : Option String := none
deriving DecidableEq

/-- Interface obligations of a scope (src/types.ts ContextScope.interfaces). -/
structure ScopeInterfaces where
  fulfills : List FulfillsRef := []
  depends : List DependsRef := []
deriving DecidableEq

/-- Tool access directive (src/types.ts ContextTool). -/
structure ContextTool where
  name : String
  scope : String
deriving DecidableEq

/-- One scope entry of a context manifest (src/types.ts ContextScope). -/
structure ContextScope where
  path : String
  interfaces : ScopeInterfaces := {}
  refs : List ContextRef := []
  facts : List ContextFact := []
  tools : List ContextTool := []
deriving DecidableEq

/-- Global section of a manifest (src/types.ts ContextGlobal). -/
structure ContextGlobal where
  refs : List ContextRef := []
  facts : List ContextFact := []
deriving DecidableEq

/-- Context manifest (src/types.ts ContextManifest). -/
structure ContextManifest where
  forFile : String
  autoGenerated : Bool
  global : ContextGlobal
  scopes : List ContextScope
deriving DecidableEq

/-- Fuel-driven model of String.prototype.split for a multi-character
separator (the source splits scope paths on the three-character separator
of " > "): at each position, a separator occurrence closes the current
group; the fuel (always at least the input length plus one) makes the
recursion structural. -/
def splitOnSeqFuel (sep : List Char) : Nat → List Char → List (List Char)
  | 0, l => [l]
  | _ + 1, [] => [[]]
  | fuel + 1, c :: rest =>
    if sep.isPrefixOf (c :: rest) then
      [] :: splitOnSeqFuel sep fuel ((c :: rest).drop sep.length)
    else
      match splitOnSeqFuel sep fuel rest with
      | [] => [[c]]
      | g :: gs => (c :: g) :: gs

/-- Model of JavaScript String.prototype.split(sep) for a non-empty
separator string. -/
def jsSplitSeq (sep s : String) : List String :=
  (splitOnSeqFuel sep.data (s.data.length + 1) s.data).map (fun l => (⟨l⟩ : String))

/-- Return shape of resolveScope (src/config.ts lines 120-159). -/
structure ResolvedScopeContext where
  refs : List ContextRef
  facts : List ContextFact
  interfaces : ScopeInterfaces
deriving DecidableEq

/-- Loop counter sequence of the discovery loop in resolveScope: i from
scopeParts.length down to 1. -/
def descIndices : Nat → List Nat
  | 0 => []
  | n + 1 => (n + 1) :: descIndices n

/-- Model of resolveScope (src/config.ts lines 120-159): find the scopes
whose path exactly equals a prefix chain candidate, walking from the full
path down to its first component, then merge in reverse discovery order
(general to specific) onto the global refs and facts. -/
def resolveScope (manifest : ContextManifest) (scopePath : String) :
    ResolvedScopeContext :=
  let scopeParts := jsSplitSeq " > " scopePath
  let matchingScopes := (descIndices scopeParts.length).filterMap
    (fun i => manifest.scopes.find?
      (fun s => s.path == jsJoin " > " (scopeParts.take i)))
  let ordered := matchingScopes.reverse
  { refs := manifest.global.refs ++ ordered.flatMap (fun s => s.refs)
    facts := manifest.global.facts ++ ordered.flatMap (fun s => s.facts)
    interfaces :=
      { fulfills := ordered.flatMap (fun s => s.interfaces.fulfills)
        depends := ordered.flatMap (fun s => s.interfaces.depends) } }

/-- Scope chain in the order the claim states it: matched scopes ordered
least-specific to most-specific (prefix candidates of increasing length). -/
def specScopeChain (manifest : ContextManifest) (scopePath : String) :
    List ContextScope :=
  let scopeParts := jsSplitSeq " > " scopePath
  ((List.range scopeParts.length).map (fun i => i + 1)).filterMap
    (fun i => manifest.scopes.find?
      (fun s => s.path == jsJoin " > " (scopeParts.take i)))

theorem descIndices_eq_reverse (n : Nat) :
    descIndices n = ((List.range n).map (fun i => i + 1)).reverse := by
  induction n with
  | zero => rfl
  | succ m ih =>
    rw [descIndices, ih, List.range_succ]
    simp

/-- Manifest of the scope-resolution scenario: global refs [g], scope a
refs [r1], scope a > b refs [r2]. -/
def scopeScenarioManifest (g r1 r2 : ContextRef) : ContextManifest :=
  { forFile := "app.cdml"
    autoGenerated := false
    global := { refs := [g], facts := [] }
    scopes := [ { path := "a", refs := [r1] },
                { path := "a > b", refs := [r2] } ] }

/-- C3: resolveScope returns refs, facts and interface obligations as the
global entries followed by the matched scopes' entries ordered
least-specific to most-specific; in particular a manifest with global
refs [g], scope a refs [r1] and scope a > b refs [r2] resolves the path
a > b to refs [g, r1, r2]. -/
theorem resolveScope_merge_order :
    (∀ (m : ContextManifest) (p : String),
      (resolveScope m p).refs =
        m.global.refs ++ (specScopeChain m p).flatMap (fun s => s.refs) ∧
      (resolveScope m p).facts =
        m.global.facts ++ (specScopeChain m p).flatMap (fun s => s.facts) ∧
      (resolveScope m p).interfaces.fulfills =
        (specScopeChain m p).flatMap (fun s => s.interfaces.fulfills) ∧
      (resolveScope m p).interfaces.depends =
        (specScopeChain m p).flatMap (fun s => s.interfaces.depends)) ∧
    (∀ g r1 r2 : ContextRef,
      (resolveScope (scopeScenarioManifest g r1 r2) "a > b").refs = [g, r1, r2]) := by
  constructor
  · intro m p
    refine ⟨?_, ?_, ?_, ?_⟩ <;>
      simp [resolveScope, specScopeChain, descIndices_eq_reverse,
        List.filterMap_reverse]
  · intro g r1 r2
    rfl

/- ───────────────────── Context assembler ───────────────────── -/

/-- Aspect view declaration (src/types.ts AspectDefinition). -/
structure AspectDefinition where
  type : String
  file : String
  component : String
deriving DecidableEq

/-- Component definition (src/types.ts ComponentDefinition).  The
implementation payload is opaque to every embedded operation and is
carried as an optional string. -/
structure ComponentDefinition where
  fqn : FQN
  name : String
  file : String
  interface : Option InterfaceDefinition := none
  constraints : Option String := none
  requires : List DependencyDefinition := []
  implementation : Option String := none
  aspects : List AspectDefinition := []
deriving DecidableEq

/-- Project registry (src/types.ts ProjectRegistry): known project names,
the component map in insertion order, and the current project name. -/
structure ProjectRegistry where
  projects : List String := []
  components : List (String × ComponentDefinition) := []
  currentProject : String := ""

/-- Model of String.prototype.endsWith. -/
def jsEndsWith (s suffix : String) : Bool := suffix.data.isSuffixOf s.data

/-- Model of resolveComponent (src/project.ts lines 56-79): direct map
lookup, then the first entry whose key ends in a colon plus the name or
equals it, then the first entry whose component name equals the last FQN
segment; parseFQN failure propagates as a thrown error. -/
def resolveComponent (fqnStr : String) (registry : ProjectRegistry) :
    Except String (Option ComponentDefinition) :=
  match registry.components.find? (fun kv => kv.1 == fqnStr) with
  | some kv => .ok (some kv.2)
  | none =>
    match registry.components.find?
        (fun kv => jsEndsWith kv.1 (":" ++ fqnStr) || kv.1 == fqnStr) with
    | some kv => .ok (some kv.2)
    | none =>
      match parseFQN fqnStr with
      | .error e => .error e
      | .ok fqn =>
        match registry.components.find?
            (fun kv => kv.2.name == (fqn.segments.getLast?).getD "") with
        | some kv => .ok (some kv.2)
        | none => .ok none

/-- Model of extractLines (src/config.ts lines 386-395) for the 1-indexed
numeric line specs of the manifest format (a single line number or
start-dash-end). -/
def extractLines (content lineSpec : String) : String :=
  let lines := (splitOnChar '\n' content.data).map (fun l => (⟨l⟩ : String))
  let parts := (splitOnChar '-' lineSpec.data).map (fun l => (⟨l⟩ : String))
  let start := (parts.headD "").toNat?.getD 0
  let endN := ((parts.drop 1).head?.bind (fun p => p.toNat?)).getD 0
  if endN ≠ 0 then
    jsJoin "\n" ((lines.drop (start - 1)).take (endN - (start - 1)))
  else
    (lines.drop (start - 1)).headD ""

/-- Model of extractKeys (src/config.ts lines 397-407): keep lines whose
key (text before the first equals sign, trimmed) is in the comma-separated
filter set. -/
def extractKeys (content keysSpec : String) : String :=
  let keys := (splitOnChar ',' keysSpec.data).map (fun l => jsTrim (⟨l⟩ : String))
  let lines := (splitOnChar '\n' content.data).map (fun l => (⟨l⟩ : String))
  jsJoin "\n" (lines.filter (fun line =>
    keys.contains (jsTrim (⟨(splitOnChar '=' line.data).headD []⟩ : String))))

/-- String value of a change kind, as serialized by the source. -/
def changeTypeStr : CdmlChangeType → String
  | .added => "added"
  | .removed => "removed"
  | .modified => "modified"
  | .unchanged => "unchanged"

/-- Model of formatChangeAsTarget (src/config.ts lines 358-384): element
tag, change kind, path, new attributes when present and non-empty, new
text when truthy, and one summary line per direct child change. -/
def formatChangeAsTarget (change : CdmlElementChange) : String :=
  jsJoin "\n"
    (["Element: <" ++ change.tagName ++ ">",
      "Change type: " ++ changeTypeStr change.type,
      "Path: " ++ change.path]
     ++ (match change.newAttributes with
         | some attrs =>
           if attrs.length > 0 then
             "Attributes:" :: attrs.map (fun kv => "  " ++ kv.1 ++ "=\"" ++ kv.2 ++ "\"")
           else []
         | none => [])
     ++ (match change.newText with
         | some t => if t != "" then ["Content: " ++ t] else []
         | none => [])
     ++ (if change.children.length > 0 then
           "Children:" :: change.children.map (fun c =>
             "  - <" ++ c.tagName ++ "> [" ++ changeTypeStr c.type ++ "]")
         else []))

/-- Model of formatProjectedInterfaces (src/projector.ts lines 85-111). -/
def formatProjectedInterfaces (projections : List ProjectedInterface) : String :=
  if projections.length == 0 then ""
  else
    jsJoin "\n"
      ("## Dependency Interfaces" ::
        projections.flatMap (fun proj =>
          ["", "### " ++ (if proj.sourceFqn.raw != "" then proj.sourceFqn.raw
                          else jsJoin ":" proj.sourceFqn.segments)]
          ++ (if proj.purpose != "" then ["Purpose: " ++ proj.purpose] else [])
          ++ proj.facets.flatMap (fun facet =>
              ["Facet [" ++ facet.type ++ "]:", facet.content])))

/-- Assembled prompt (src/types.ts AssembledPrompt).  The current-state map
is the insertion-ordered file-to-content record. -/
structure AssembledPrompt where
  target : String
  current : List (String × String)
  contracts : List ProjectedInterface
  dependencies : List ProjectedInterface
  constraints : List String
  facts : List ContextFact
  changeTargets : List ContextRef
  prompt : String

/-- Model of buildPromptString (src/config.ts lines 271-354): fixed section
order with conditional sections, ending in the fixed instruction footer. -/
def buildPromptString (target : String) (current : List (String × String))
    (contracts dependencies : List ProjectedInterface) (constraints : List String)
    (facts : List ContextFact) (changeTargets : List ContextRef) : String :=
  jsJoin "\n"
    (["## Target State",
      "The following CDML change describes what should be implemented:",
      "", target, ""]
     ++ (if current.length > 0 then
           ["## Current State", "These are the current source files:", ""]
           ++ current.flatMap (fun fc =>
               ["### " ++ fc.1 ++
                  (match changeTargets.find? (fun r => r.file == fc.1) with
                   | some r => if r.role != "" then " (" ++ r.role ++ ")" else ""
                   | none => ""),
                "```", fc.2, "```", ""])
         else [])
     ++ (if contracts.length > 0 then
           ["## Interface Contracts",
            "This scope must satisfy these interface contracts:", "",
            formatProjectedInterfaces contracts, ""]
         else [])
     ++ (if dependencies.length > 0 then
           [formatProjectedInterfaces dependencies, ""]
         else [])
     ++ (if constraints.length > 0 then
           ["## Constraints",
            "The following elements are locked and must NOT be modified:", ""]
           ++ constraints.map (fun c => "- " ++ c) ++ [""]
         else [])
     ++ (if facts.length > 0 then
           "## Architectural Decisions" ::
             facts.map (fun fact =>
               "- " ++ fact.content ++
                 (match fact.decision with
                  | some d => if d != "" then " [" ++ d ++ "]" else ""
                  | none => ""))
           ++ [""]
         else [])
     ++ (if changeTargets.length > 0 then
           ["## Files to Modify", "Generate or modify these files:"]
           ++ changeTargets.map (fun ref =>
               "- " ++ ref.file ++ " [" ++ ref.role ++ "]" ++
                 (match ref.lines with
                  | some ls => if ls != "" then " (lines " ++ ls ++ ")" else ""
                  | none => ""))
           ++ [""]
         else [])
     ++ ["## Instructions",
         "1. Implement the Target State changes",
         "2. Satisfy all interface contracts",
         "3. Use dependency interfaces as specified",
         "4. Do not modify locked/constrained elements",
         "5. Follow architectural decisions listed above",
         "6. Return complete file contents for each modified file"])

/-- Interface-contract resolution loops of assembleContext (src/config.ts
lines 213-241): each fulfills obligation whose component resolves and has
an interface contributes its full facet list as a contract; each depends
obligation whose component resolves and has an interface contributes a
facet-filtered projection.  A parseFQN throw propagates. -/
def resolveContractsAndDeps (reg : ProjectRegistry)
    (fulfills : List FulfillsRef) (depends : List DependsRef) :
    Except String (List ProjectedInterface × List ProjectedInterface) := do
  let contracts ← fulfills.foldlM (fun acc f => do
    let comp? ← resolveComponent f.fqn reg
    match comp? with
    | some comp =>
      match comp.interface with
      | some iface =>
        pure (acc ++ [{ sourceFqn := comp.fqn
                        facets := iface.facets
                        purpose := "contract to fulfill" }])
      | none => pure acc
    | none => pure acc) ([] : List ProjectedInterface)
  let deps ← depends.foldlM (fun acc d => do
    let comp? ← resolveComponent d.fqn reg
    match comp? with
    | some comp =>
      match comp.interface with
      | some iface => do
        let fqnd ← parseFQN d.fqn
        pure (acc ++ [projectFacets
          { fqn := fqnd
            facets := d.facet.map (fun x => [x])
            usage := d.usage
            config := [] } iface])
      | none => pure acc
    | none => pure acc) ([] : List ProjectedInterface)
  pure (contracts, deps)

/-- Model of assembleContext (src/config.ts lines 174-267): resolve the
scope context, render the change as the target text, read and slice the
referenced files through the file-system oracle fs (existsSync plus
readFile, absent or unreadable files skipped), resolve contracts and
dependency projections when a registry is supplied, leave the constraints
list empty, and compose the prompt. -/
def assembleContext (change : CdmlElementChange) (scopePath : String)
    (manifest : ContextManifest) (registry : Option ProjectRegistry)
    (projectRoot : String) (fs : String → Option String) :
    Except String AssembledPrompt :=
  let scopeContext := resolveScope manifest scopePath
  let target := formatChangeAsTarget change
  let current := scopeContext.refs.foldl (fun acc ref =>
    match fs (projectRoot ++ "/" ++ ref.file) with
    | some content0 =>
      let c1 := match ref.lines with
        | some ls => if ls != "" then extractLines content0 ls else content0
        | none => content0
      let c2 := match ref.keys with
        | some ks => if ks != "" then extractKeys c1 ks else c1
        | none => c1
      setAttr acc ref.file c2
    | none => acc) []
  match (match registry with
         | some reg => resolveContractsAndDeps reg
             scopeContext.interfaces.fulfills scopeContext.interfaces.depends
         | none => .ok ([], [])) with
  | .error e => .error e
  | .ok (contracts, dependencies) =>
    .ok { target := target
          current := current
          contracts := contracts
          dependencies := dependencies
          constraints := []
          facts := scopeContext.facts
          changeTargets := scopeContext.refs
          prompt := buildPromptString target current contracts dependencies []
            scopeContext.facts scopeContext.refs }

/- ─────────────── Assembler theorem (claim C7) ─────────────── -/

/-- C7: whenever assembleContext returns an AssembledPrompt, its
constraints list is empty — the assembler itself never populates
locked-constraint descriptions. -/
theorem assembleContext_constraints_empty (change : CdmlElementChange)
    (scopePath : String) (manifest : ContextManifest)
    (registry : Option ProjectRegistry) (projectRoot : String)
    (fs : String → Option String) (r : AssembledPrompt)
    (h : assembleContext change scopePath manifest registry projectRoot fs = .ok r) :
    r.constraints = [] := by
  simp only [assembleContext] at h
  split at h
  · exact absurd h (by simp)
  · rw [Except.ok.injEq] at h
    subst h
    rfl

def emptyScenarioManifest : ContextManifest :=
  { forFile := "app.cdml", autoGenerated := false,
    global := { refs := [], facts := [] }, scopes := [] }

def scenarioChange : CdmlElementChange :=
  .mk .added "app" "app" none (some []) none (some "") []

def noFileSystem : String → Option String := fun _ => none

/-- C7 witness: a concrete assembly call (empty manifest, no registry, no
readable files) succeeds and its constraints list is empty. -/
theorem assembleContext_constraints_empty_witness :
    (assembleContext scenarioChange "app" emptyScenarioManifest none "."
        noFileSystem).map (fun r => r.constraints) = .ok [] := by
  have hok : (assembleContext scenarioChange "app" emptyScenarioManifest none "."
      noFileSystem).isOk = true := by decide
  cases hh : assembleContext scenarioChange "app" emptyScenarioManifest none "."
      noFileSystem with
  | error e =>
    rw [hh] at hok
    exact absurd hok (by simp [Except.isOk, Except.toBool])
  | ok r =>
    simp only [Except.map]
    rw [assembleContext_constraints_empty scenarioChange "app"
      emptyScenarioManifest none "." noFileSystem r hh]
